import Mathlib

/-!
Verification of the `getgo` Go-toolchain installer (`main.go`) against its
natural-language specification.  The Go source is shallowly embedded: pure
computations become Lean functions, stateful operations become explicit state
passing over an abstract filesystem / event trace, and every fallible library
call (network, filesystem) is driven by an explicit success/failure oracle so
that theorems quantify over all outcomes.  All definitions are executable.
-/

namespace GetGo

/-! ## String helpers (models of Go `strings` functions) -/

/-- Model of a prefix test on character lists (used to build `strings.Contains`
and `strings.HasPrefix`). `listPfx pat s` is true when `pat` is a prefix of `s`. -/
def listPfx : List Char → List Char → Bool
  | [], _ => true
  | _ :: _, [] => false
  | a :: as, b :: bs => a == b && listPfx as bs

/-- Substring search on character lists: `listInfx pat s` is true when `pat`
occurs contiguously inside `s`. -/
def listInfx (pat : List Char) : List Char → Bool
  | [] => listPfx pat []
  | c :: rest => listPfx pat (c :: rest) || listInfx pat rest

/-- Model of Go `strings.Contains(s, pat)`. -/
def strContains (s pat : String) : Bool := listInfx pat.data s.data

/-- Model of Go `strings.HasPrefix(s, pat)`. -/
def strStarts (s pat : String) : Bool := listPfx pat.data s.data

/-- Model of Go `strings.Repeat(s, n)`. -/
def strRepeat (s : String) : Nat → String
  | 0 => ""
  | n + 1 => s ++ strRepeat s n

theorem listPfx_append (pat a b : List Char) (h : listPfx pat a = true) :
    listPfx pat (a ++ b) = true := by
  induction pat generalizing a with
  | nil => simp [listPfx]
  | cons c cs ih =>
    cases a with
    | nil => simp [listPfx] at h
    | cons x xs =>
      simp only [listPfx, Bool.and_eq_true, beq_iff_eq] at h ⊢
      exact ⟨h.1, ih xs (by simpa using h.2)⟩

theorem listInfx_append_left (pat a b : List Char) (h : listInfx pat a = true) :
    listInfx pat (a ++ b) = true := by
  induction a with
  | nil =>
    cases pat with
    | nil => cases b <;> simp [listInfx, listPfx]
    | cons c cs => simp [listInfx, listPfx] at h
  | cons x xs ih =>
    simp only [listInfx, Bool.or_eq_true] at h
    rcases h with h | h
    · simp only [List.cons_append, listInfx, Bool.or_eq_true]
      exact Or.inl (listPfx_append _ _ _ h)
    · simp only [List.cons_append, listInfx, Bool.or_eq_true]
      exact Or.inr (ih h)

theorem strContains_append_left (s t pat : String) (h : strContains s pat = true) :
    strContains (s ++ t) pat = true := by
  unfold strContains at h ⊢
  rw [String.data_append]
  exact listInfx_append_left _ _ _ h

/-! ## ProgressTrackingReader (`progressReader`, main.go lines 28-67)

Bytes are `Nat`, percentages are `Int` (Go `int`).  The Go percentage
computation `int(float64(readBytes) / float64(totalBytes) * 100)` is a
floating-point division.  For `totalBytes > 0` the value is the (monotone)
truncation of the exact ratio, modelled as integer division; for
`totalBytes == 0` IEEE-754 division yields a non-finite value (`Inf`/`NaN`)
without faulting, and the integer conversion of a non-finite value is
implementation-specific — modelled as the indeterminate result `none`. -/

/-- Model of `int(float64(r) / float64(t) * 100)`: truncated ratio for `t > 0`,
indeterminate (`none`) for `t = 0` (no division-by-zero fault occurs). -/
def goFloatPct (r t : Nat) : Option Int :=
  if t = 0 then none else some ((r : Int) * 100 / (t : Int))

/-- State of one `progressReader` (`reader` itself is driven externally; the
100ms wall-clock throttle `lastUpdateTime` is driven by a boolean oracle). -/
structure PRState where
  totalBytes : Nat
  readBytes : Nat
  lastPercentage : Int
  deriving Repr, DecidableEq

/-- Model of `newProgressReader`: Go zero value gives `lastPercentage = 0`. -/
def newProgressReader (totalBytes : Nat) : PRState :=
  { totalBytes := totalBytes, readBytes := 0, lastPercentage := 0 }

/-- Model of `progressReader.Read` (main.go lines 45-67).  `n` is the byte
count returned by the underlying read, `throttleFired` the oracle for
`time.Since(pr.lastUpdateTime) > 100*time.Millisecond`.  Returns the updated
state and the percentage handed to `renderProgressBar` when a progress line is
emitted (the returned `n` and underlying error pass through unchanged and are
kept implicit).  `progressStep` is the body of the throttled branch, with `rb`
the accumulated `readBytes` after the current read. -/
def progressStep (pr : PRState) (rb : Nat) : PRState × Option Int :=
  match goFloatPct rb pr.totalBytes with
  | some percentage =>
    if percentage ≠ pr.lastPercentage ∧ percentage ≤ 100 then
      ({ pr with readBytes := rb, lastPercentage := percentage }, some percentage)
    else
      ({ pr with readBytes := rb }, none)
  | none => ({ pr with readBytes := rb }, none)

def progressRead (pr : PRState) (n : Nat) (throttleFired : Bool) :
    PRState × Option Int :=
  if throttleFired then progressStep pr (pr.readBytes + n)
  else ({ pr with readBytes := pr.readBytes + n }, none)

/-- Run a sequence of reads (byte count and throttle oracle for each) through
the progress reader, collecting the emitted percentages in order. -/
def runReads (pr : PRState) : List (Nat × Bool) → PRState × List Int
  | [] => (pr, [])
  | (n, t) :: rest =>
    let s := progressRead pr n t
    let r := runReads s.1 rest
    (r.1, s.2.toList ++ r.2)

/-- Clamp applied by `renderProgressBar` (main.go lines 71-76). -/
def clampPct (percentage : Int) : Int :=
  if percentage < 0 then 0 else if percentage > 100 then 100 else percentage

/-- Model of `fmt.Sprintf("%3d%%", p)` for the clamped percentage. -/
def fmtPct3 (p : Int) : String :=
  (if p < 10 then "  " else if p < 100 then " " else "") ++ toString p ++ "%"

/-- Model of `renderProgressBar` (main.go lines 70-100): clamped percentage,
50-cell bar, carriage-return redraw. -/
def renderProgressBar (percentage : Int) : String :=
  let p := clampPct percentage
  let width : Int := 50
  let completed : Int := width * p / 100
  "\r" ++ "Downloading: [" ++ strRepeat "=" completed.toNat ++
    (if completed < width then strRepeat " " (width - completed).toNat else "") ++
    "] " ++ fmtPct3 p

/-- Model of the rendered-percentage sequence of one `downloadFileWithProgress`
copy (main.go lines 560-567): the percentages emitted by the throttled reads,
followed by the unconditional final `renderProgressBar(100)`. -/
def downloadRenderedPcts (totalBytes : Nat) (reads : List (Nat × Bool)) : List Int :=
  (runReads (newProgressReader totalBytes) reads).2 ++ [100]

/-- Percentage of a state, as computed by the reader for positive `totalBytes`. -/
def pctOf (readBytes totalBytes : Nat) : Int := (readBytes : Int) * 100 / (totalBytes : Int)

theorem pctOf_nonneg (r t : Nat) : 0 ≤ pctOf r t := by
  unfold pctOf
  exact Int.ediv_nonneg (by positivity) (by positivity)

theorem pctOf_mono {a b : Nat} (t : Nat) (ht : 0 < t) (h : a ≤ b) :
    pctOf a t ≤ pctOf b t := by
  unfold pctOf
  apply Int.ediv_le_ediv (by exact_mod_cast ht)
  have hab : (a : Int) ≤ (b : Int) := by exact_mod_cast h
  nlinarith

theorem runReads_spec (reads : List (Nat × Bool)) : ∀ pr : PRState,
    0 < pr.totalBytes →
    pr.lastPercentage ≤ pctOf pr.readBytes pr.totalBytes →
    pr.lastPercentage ≤ 100 →
    List.Chain (· ≤ ·) pr.lastPercentage (runReads pr reads).2 ∧
      ∀ x ∈ (runReads pr reads).2, 0 ≤ x ∧ x ≤ 100 := by
  induction reads with
  | nil => intro pr _ _ _; simp [runReads]
  | cons nt rest ih =>
    intro pr ht hle h100
    obtain ⟨n, t⟩ := nt
    have hmono : pctOf pr.readBytes pr.totalBytes ≤ pctOf (pr.readBytes + n) pr.totalBytes :=
      pctOf_mono pr.totalBytes ht (Nat.le_add_right _ _)
    have hpct : goFloatPct (pr.readBytes + n) pr.totalBytes =
        some (pctOf (pr.readBytes + n) pr.totalBytes) := by
      unfold goFloatPct pctOf
      rw [if_neg (Nat.pos_iff_ne_zero.mp ht)]
    cases t with
    | true =>
      have hread : progressRead pr n true = progressStep pr (pr.readBytes + n) := rfl
      by_cases hcond : pctOf (pr.readBytes + n) pr.totalBytes ≠ pr.lastPercentage ∧
          pctOf (pr.readBytes + n) pr.totalBytes ≤ 100
      · have hstep : progressStep pr (pr.readBytes + n) =
            (⟨pr.totalBytes, pr.readBytes + n, pctOf (pr.readBytes + n) pr.totalBytes⟩,
              some (pctOf (pr.readBytes + n) pr.totalBytes)) := by
          unfold progressStep
          rw [hpct]
          exact if_pos hcond
        have ihres := ih ⟨pr.totalBytes, pr.readBytes + n, pctOf (pr.readBytes + n) pr.totalBytes⟩
          ht (le_refl _) hcond.2
        constructor
        · simp only [runReads, hread, hstep, Option.toList_some, List.singleton_append]
          exact List.Chain.cons (le_trans hle hmono) ihres.1
        · simp only [runReads, hread, hstep, Option.toList_some, List.singleton_append,
            List.mem_cons]
          rintro x (rfl | hx)
          · exact ⟨pctOf_nonneg _ _, hcond.2⟩
          · exact ihres.2 x hx
      · have hstep : progressStep pr (pr.readBytes + n) =
            (⟨pr.totalBytes, pr.readBytes + n, pr.lastPercentage⟩, none) := by
          unfold progressStep
          rw [hpct]
          exact if_neg hcond
        have ihres := ih ⟨pr.totalBytes, pr.readBytes + n, pr.lastPercentage⟩
          ht (le_trans hle hmono) h100
        constructor
        · simpa only [runReads, hread, hstep, Option.toList_none, List.nil_append] using ihres.1
        · simpa only [runReads, hread, hstep, Option.toList_none, List.nil_append] using ihres.2
    | false =>
      have hread : progressRead pr n false =
          (⟨pr.totalBytes, pr.readBytes + n, pr.lastPercentage⟩, none) := rfl
      have ihres := ih ⟨pr.totalBytes, pr.readBytes + n, pr.lastPercentage⟩
        ht (le_trans hle hmono) h100
      constructor
      · simpa only [runReads, hread, Option.toList_none, List.nil_append] using ihres.1
      · simpa only [runReads, hread, Option.toList_none, List.nil_append] using ihres.2

/-- C5: for every sequence of reads through the progress-tracking reader whose
byte counts sum to `totalBytes` (with `totalBytes > 0`), the sequence of
percentages rendered to the progress bar is non-decreasing, its final entry
(produced by the unconditional `renderProgressBar(100)` after the copy) is
exactly 100, and every rendered value is displayed unclamped. -/
theorem progress_pcts_monotone_final_100 (totalBytes : Nat) (reads : List (Nat × Bool))
    (ht : 0 < totalBytes)
    (hsum : (reads.map Prod.fst).sum = totalBytes) :
    List.Chain' (· ≤ ·) (downloadRenderedPcts totalBytes reads) ∧
      (downloadRenderedPcts totalBytes reads).getLast? = some 100 ∧
      (downloadRenderedPcts totalBytes reads).map clampPct =
        downloadRenderedPcts totalBytes reads := by
  have hinit : (newProgressReader totalBytes).lastPercentage ≤
      pctOf (newProgressReader totalBytes).readBytes (newProgressReader totalBytes).totalBytes := by
    simp only [newProgressReader]
    exact pctOf_nonneg 0 totalBytes
  have hspec := runReads_spec reads (newProgressReader totalBytes) ht hinit
    (by norm_num [newProgressReader])
  set ems := (runReads (newProgressReader totalBytes) reads).2 with hems
  have hchain0 : List.Chain' (· ≤ ·) ((newProgressReader totalBytes).lastPercentage :: ems) :=
    hspec.1
  have hchain : List.Chain' (· ≤ ·) ems := hchain0.tail
  refine ⟨?_, ?_, ?_⟩
  · unfold downloadRenderedPcts
    rw [← hems, List.chain'_append]
    refine ⟨hchain, List.chain'_singleton _, ?_⟩
    intro x hx y hy
    simp only [List.head?_cons, Option.mem_def, Option.some.injEq] at hy
    subst hy
    exact (hspec.2 x (List.mem_of_mem_getLast? hx)).2
  · unfold downloadRenderedPcts
    rw [← hems, List.getLast?_concat]
  · unfold downloadRenderedPcts
    rw [← hems, List.map_append]
    have hid : ∀ x ∈ ems, clampPct x = x := by
      intro x hx
      obtain ⟨h0, h1⟩ := hspec.2 x hx
      unfold clampPct
      rw [if_neg (by omega), if_neg (by omega)]
    rw [List.map_congr_left hid]
    simp [clampPct]

/-- Witness for C5 at a concrete download: total 100 bytes, two 50-byte reads
with the throttle firing each time. -/
theorem progress_pcts_monotone_final_100_witness :
    0 < 100 ∧ (([((50 : Nat), true), (50, true)]).map Prod.fst).sum = 100 ∧
      (List.Chain' (· ≤ ·) (downloadRenderedPcts 100 [(50, true), (50, true)]) ∧
        (downloadRenderedPcts 100 [(50, true), (50, true)]).getLast? = some 100 ∧
        (downloadRenderedPcts 100 [(50, true), (50, true)]).map clampPct =
          downloadRenderedPcts 100 [(50, true), (50, true)]) :=
  ⟨by decide, by decide,
    progress_pcts_monotone_final_100 100 [(50, true), (50, true)] (by decide) (by decide)⟩

/-- C6: when the declared `totalBytes` is 0, the percentage computation of
`progressReader.Read` is indeterminate rather than a faulting division (IEEE
float division by zero yields a non-finite value, modelled as `none`), and the
read completes normally: the byte accounting is updated and the underlying
result passes through, with no determinate percentage ever produced. -/
theorem progress_read_zero_total_indeterminate (pr : PRState) (n : Nat)
    (throttleFired : Bool) (h0 : pr.totalBytes = 0) :
    goFloatPct (pr.readBytes + n) pr.totalBytes = none ∧
      progressRead pr n throttleFired =
        (⟨pr.totalBytes, pr.readBytes + n, pr.lastPercentage⟩, none) := by
  constructor
  · simp [goFloatPct, h0]
  · cases throttleFired
    · rfl
    · show progressStep pr (pr.readBytes + n) = _
      unfold progressStep
      simp [goFloatPct, h0]

/-- Witness for C6 at a concrete reader state with `totalBytes = 0`. -/
theorem progress_read_zero_total_indeterminate_witness :
    (⟨0, 5, 0⟩ : PRState).totalBytes = 0 ∧
      (goFloatPct ((⟨0, 5, 0⟩ : PRState).readBytes + 7) (⟨0, 5, 0⟩ : PRState).totalBytes = none ∧
        progressRead ⟨0, 5, 0⟩ 7 true =
          (⟨(⟨0, 5, 0⟩ : PRState).totalBytes, (⟨0, 5, 0⟩ : PRState).readBytes + 7,
            (⟨0, 5, 0⟩ : PRState).lastPercentage⟩, none)) :=
  ⟨rfl, progress_read_zero_total_indeterminate ⟨0, 5, 0⟩ 7 true rfl⟩

/-! ## Path helpers (models of `path/filepath` on Unix paths) -/

/-- Model of `filepath.IsAbs` for Unix targets: the path starts with a slash. -/
def filepathIsAbs (p : String) : Bool := strStarts p "/"

/-- Model of `filepath.Join` for the two-argument calls in the source.  Go also
runs `Clean` on the result; the normalization is omitted — it neither expands
`~`, changes whether a path is absolute, nor affects any verified property. -/
def goJoin (a b : String) : String :=
  if a = "" then b else if b = "" then a else a ++ "/" ++ b

/-- Model of `filepath.Abs`: a relative path is joined against the working
directory `cwd` (obtained from `os.Getwd` in Go). `Clean` is omitted as in
`goJoin`. -/
def filepathAbs (cwd p : String) : String :=
  if filepathIsAbs p then p else goJoin cwd p

/-! ## Downloader (`downloadFileWithProgress`, main.go lines 529-570) -/

/-- Outcome of one HTTP request: a transport/connection failure (the error
returned by `http.Head` / `http.Get`), or a response with a numeric status
code and its status text (Go `resp.Status`, e.g. `"404 Not Found"`). -/
inductive HttpRes where
  | failure (msg : String)
  | response (statusCode : Nat) (status : String) (contentLength : Nat)
  deriving Repr, DecidableEq

/-- Model of `downloadFileWithProgress` (main.go lines 529-570): HEAD request,
status check, GET request, status check, destination-file creation and the
progress-tracked copy (each with an error oracle).  The progress side effects
are modelled separately by `downloadRenderedPcts`. -/
def downloadFileWithProgress (url : String) (headRes getRes : HttpRes)
    (createErr copyErr : Option String) : Except String Unit :=
  match headRes with
  | .failure m => .error m
  | .response code status _ =>
    if code ≠ 200 then .error ("bad status: " ++ status ++ " (URL: " ++ url ++ ")")
    else
      match getRes with
      | .failure m => .error m
      | .response code2 status2 _ =>
        if code2 ≠ 200 then .error ("bad status: " ++ status2 ++ " (URL: " ++ url ++ ")")
        else
          match createErr with
          | some m => .error m
          | none =>
            match copyErr with
            | some m => .error m
            | none => .ok ()

/-! ## ArchiveExtractor (`untargz` main.go lines 593-644, `unzip` lines 646-685)

Archives are lists of entries paired with per-entry success oracles for the
stream and filesystem operations; the produced filesystem effects are collected
as `(path, node)` pairs. -/

/-- A node materialized on disk by extraction. -/
inductive FsNode where
  | dirNode
  | fileNode (content : List Nat) (mode : Nat)
  deriving Repr, DecidableEq

/-- Tar entry type flag: `tar.TypeDir`, `tar.TypeReg`, or anything else
(symlinks, hardlinks, devices — skipped by the `switch`). -/
inductive TarType where
  | dir
  | reg
  | other
  deriving Repr, DecidableEq

structure TarEntry where
  name : String
  typeflag : TarType
  mode : Nat
  content : List Nat
  deriving Repr, DecidableEq

/-- Per-entry success oracles for `untargz`: `tr.Next()`, `os.MkdirAll` (the
entry path for directories, the parent for files), `os.Create`, `io.Copy`,
`os.Chmod`. -/
structure TarOps where
  nextOk : Bool
  mkdirOk : Bool
  createOk : Bool
  copyOk : Bool
  chmodOk : Bool
  deriving Repr, DecidableEq

/-- Loop body of `untargz` (main.go lines 608-642). -/
def untargzLoop (dst : String) :
    List (TarEntry × TarOps) → List (String × FsNode) → Except String (List (String × FsNode))
  | [], acc => .ok acc
  | (e, ops) :: rest, acc =>
    if ops.nextOk then
      let path := goJoin dst e.name
      match e.typeflag with
      | .dir =>
        if ops.mkdirOk then untargzLoop dst rest (acc ++ [(path, .dirNode)])
        else .error "mkdir error"
      | .reg =>
        if ops.mkdirOk then
          if ops.createOk then
            if ops.copyOk then
              if ops.chmodOk then
                untargzLoop dst rest (acc ++ [(path, .fileNode e.content e.mode)])
              else .error "chmod error"
            else .error "copy error"
          else .error "create error"
        else .error "mkdir error"
      | .other => untargzLoop dst rest acc
    else .error "tar read error"

/-- Model of `untargz` (main.go lines 593-644): `os.Open` and
`gzip.NewReader` oracles, then the entry loop. -/
def untargz (openOk gzipOk : Bool) (entries : List (TarEntry × TarOps)) (dst : String) :
    Except String (List (String × FsNode)) :=
  if openOk then
    if gzipOk then untargzLoop dst entries []
    else .error "gzip error"
  else .error "open error"

structure ZipEntry where
  name : String
  isDir : Bool
  mode : Nat
  content : List Nat
  deriving Repr, DecidableEq

/-- Per-entry success oracles for `unzip`: `os.MkdirAll` (the entry path for
directories — whose error the source discards — or the parent for files),
`os.OpenFile`, `f.Open()`, `io.Copy`. -/
structure ZipOps where
  mkdirOk : Bool
  openFileOk : Bool
  openEntryOk : Bool
  copyOk : Bool
  deriving Repr, DecidableEq

/-- Loop body of `unzip` (main.go lines 653-683).  Note: for a directory entry
the source calls `os.MkdirAll(path, f.Mode())` without checking the returned
error and continues; the file mode is applied at `os.OpenFile` creation time. -/
def unzipLoop (dst : String) :
    List (ZipEntry × ZipOps) → List (String × FsNode) → Except String (List (String × FsNode))
  | [], acc => .ok acc
  | (f, ops) :: rest, acc =>
    let path := goJoin dst f.name
    if f.isDir then
      unzipLoop dst rest (if ops.mkdirOk then acc ++ [(path, .dirNode)] else acc)
    else
      if ops.mkdirOk then
        if ops.openFileOk then
          if ops.openEntryOk then
            if ops.copyOk then
              unzipLoop dst rest (acc ++ [(path, .fileNode f.content f.mode)])
            else .error "copy error"
          else .error "zip entry open error"
        else .error "open file error"
      else .error "mkdir error"

/-- Model of `unzip` (main.go lines 646-685): `zip.OpenReader` oracle, then
the entry loop over the central directory. -/
def unzip (openOk : Bool) (entries : List (ZipEntry × ZipOps)) (dst : String) :
    Except String (List (String × FsNode)) :=
  if openOk then unzipLoop dst entries [] else .error "zip open error"

/-- Success of an `Except` result, as a Boolean. -/
def exceptOk {ε α : Type} : Except ε α → Bool
  | .ok _ => true
  | .error _ => false

@[simp] theorem exceptOk_ok {ε α : Type} (a : α) : exceptOk (ε := ε) (.ok a) = true := rfl

@[simp] theorem exceptOk_error {ε α : Type} (e : ε) : exceptOk (α := α) (.error e) = false := rfl

/-- The operations of one tar entry whose failure `untargz` checks and turns
into an error return. -/
def tarOpsOk (e : TarEntry) (ops : TarOps) : Bool :=
  ops.nextOk &&
    (match e.typeflag with
     | .dir => ops.mkdirOk
     | .reg => ops.mkdirOk && ops.createOk && ops.copyOk && ops.chmodOk
     | .other => true)

/-- The operations of one zip entry whose failure `unzip` checks and turns
into an error return: for a directory entry the `os.MkdirAll` error is
discarded by the source, so nothing is checked. -/
def zipOpsOk (f : ZipEntry) (ops : ZipOps) : Bool :=
  f.isDir || (ops.mkdirOk && ops.openFileOk && ops.openEntryOk && ops.copyOk)

theorem untargzLoop_ok (dst : String) (entries : List (TarEntry × TarOps)) :
    ∀ acc, exceptOk (untargzLoop dst entries acc) =
      entries.all fun p => tarOpsOk p.1 p.2 := by
  induction entries with
  | nil => intro acc; rfl
  | cons p rest ih =>
    intro acc
    obtain ⟨e, ops⟩ := p
    cases hn : ops.nextOk with
    | false => simp [untargzLoop, hn, tarOpsOk]
    | true =>
      cases htf : e.typeflag with
      | dir =>
        cases hm : ops.mkdirOk <;>
          simp [untargzLoop, hn, htf, hm, tarOpsOk, ih]
      | reg =>
        cases hm : ops.mkdirOk <;> cases hc : ops.createOk <;>
          cases hcp : ops.copyOk <;> cases hch : ops.chmodOk <;>
          simp [untargzLoop, hn, htf, hm, hc, hcp, hch, tarOpsOk, ih]
      | other => simp [untargzLoop, hn, htf, tarOpsOk, ih]

theorem unzipLoop_ok (dst : String) (entries : List (ZipEntry × ZipOps)) :
    ∀ acc, exceptOk (unzipLoop dst entries acc) =
      entries.all fun p => zipOpsOk p.1 p.2 := by
  induction entries with
  | nil => intro acc; rfl
  | cons p rest ih =>
    intro acc
    obtain ⟨f, ops⟩ := p
    cases hd : f.isDir with
    | true => simp [unzipLoop, hd, zipOpsOk, ih]
    | false =>
      cases hm : ops.mkdirOk <;> cases ho : ops.openFileOk <;>
        cases hoe : ops.openEntryOk <;> cases hcp : ops.copyOk <;>
        simp [unzipLoop, hd, hm, ho, hoe, hcp, zipOpsOk, ih]

/-- C4 counterexample: the zip strategy silently ignores a failing
`os.MkdirAll` for a directory entry — extraction continues past the failed
entry and returns success, so it is false that for both strategies any
failure at any entry (including creating a directory) aborts extraction with
an error. -/
theorem unzip_ignores_dir_mkdir_failure :
    (⟨false, true, true, true⟩ : ZipOps).mkdirOk = false ∧
      unzip true
        [(⟨"go", true, 493, []⟩, ⟨false, true, true, true⟩),
         (⟨"go/readme", false, 420, [7]⟩, ⟨true, true, true, true⟩)] "dst" =
        .ok [("dst/go/readme", .fileNode [7] 420)] := by
  constructor
  · rfl
  · rfl

/-- C4 amended: extraction failure handling, as the code implements it.  For
the tar+gzip strategy, the extraction succeeds exactly when every checked
operation of every entry (entry read, mkdir, create, copy, chmod) succeeds —
any such failure aborts with an error.  The zip strategy likewise succeeds
exactly when every checked per-entry operation (parent mkdir, open, entry
open, copy) succeeds, except that a failure of `os.MkdirAll` for a
directory-marker entry is ignored and extraction continues. -/
theorem extraction_aborts_on_entry_failure (dst dst2 : String) (o g zo : Bool)
    (tentries : List (TarEntry × TarOps)) (zentries : List (ZipEntry × ZipOps)) :
    exceptOk (untargz o g tentries dst) =
        (o && g && tentries.all fun p => tarOpsOk p.1 p.2) ∧
      exceptOk (unzip zo zentries dst2) =
        (zo && zentries.all fun p => zipOpsOk p.1 p.2) := by
  constructor
  · cases o <;> cases g <;> simp [untargz, untargzLoop_ok]
  · cases zo <;> simp [unzip, unzipLoop_ok]

/-! ### Successful extraction output (for C8) -/

def allTarOps : TarOps := ⟨true, true, true, true, true⟩

def allZipOps : ZipOps := ⟨true, true, true, true⟩

@[simp] theorem allTarOps_nextOk : allTarOps.nextOk = true := rfl

@[simp] theorem allTarOps_mkdirOk : allTarOps.mkdirOk = true := rfl

@[simp] theorem allTarOps_createOk : allTarOps.createOk = true := rfl

@[simp] theorem allTarOps_copyOk : allTarOps.copyOk = true := rfl

@[simp] theorem allTarOps_chmodOk : allTarOps.chmodOk = true := rfl

@[simp] theorem allZipOps_mkdirOk : allZipOps.mkdirOk = true := rfl

@[simp] theorem allZipOps_openFileOk : allZipOps.openFileOk = true := rfl

@[simp] theorem allZipOps_openEntryOk : allZipOps.openEntryOk = true := rfl

@[simp] theorem allZipOps_copyOk : allZipOps.copyOk = true := rfl

/-- Filesystem effects of a fully successful `untargz` run, in entry order. -/
def tarOut (dst : String) : List TarEntry → List (String × FsNode)
  | [] => []
  | e :: rest =>
    match e.typeflag with
    | .dir => (goJoin dst e.name, .dirNode) :: tarOut dst rest
    | .reg => (goJoin dst e.name, .fileNode e.content e.mode) :: tarOut dst rest
    | .other => tarOut dst rest

/-- Filesystem effects of a fully successful `unzip` run, in entry order. -/
def zipOut (dst : String) : List ZipEntry → List (String × FsNode)
  | [] => []
  | f :: rest =>
    if f.isDir then (goJoin dst f.name, .dirNode) :: zipOut dst rest
    else (goJoin dst f.name, .fileNode f.content f.mode) :: zipOut dst rest

theorem untargzLoop_all_ok (dst : String) (entries : List TarEntry) :
    ∀ acc, untargzLoop dst (entries.map fun e => (e, allTarOps)) acc =
      .ok (acc ++ tarOut dst entries) := by
  induction entries with
  | nil => intro acc; simp [untargzLoop, tarOut]
  | cons e rest ih =>
    intro acc
    cases htf : e.typeflag <;>
      simp [untargzLoop, tarOut, htf, ih, List.append_assoc]

theorem unzipLoop_all_ok (dst : String) (entries : List ZipEntry) :
    ∀ acc, unzipLoop dst (entries.map fun f => (f, allZipOps)) acc =
      .ok (acc ++ zipOut dst entries) := by
  induction entries with
  | nil => intro acc; simp [unzipLoop, zipOut]
  | cons f rest ih =>
    intro acc
    cases hd : f.isDir <;>
      simp [unzipLoop, zipOut, hd, ih, List.append_assoc]

theorem tarOut_mem (dst : String) (entries : List TarEntry) :
    ∀ e ∈ entries, e.typeflag = TarType.reg →
      (goJoin dst e.name, FsNode.fileNode e.content e.mode) ∈ tarOut dst entries := by
  induction entries with
  | nil => intro e he; cases he
  | cons a rest ih =>
    intro e he hreg
    rcases List.mem_cons.mp he with rfl | hmem
    · rw [tarOut, hreg]
      exact List.mem_cons_self _ _
    · have htail := ih e hmem hreg
      rw [tarOut]
      cases a.typeflag <;> simp [htail]

theorem zipOut_mem (dst : String) (entries : List ZipEntry) :
    ∀ f ∈ entries, f.isDir = false →
      (goJoin dst f.name, FsNode.fileNode f.content f.mode) ∈ zipOut dst entries := by
  induction entries with
  | nil => intro f hf; cases hf
  | cons a rest ih =>
    intro f hf hfile
    rcases List.mem_cons.mp hf with rfl | hmem
    · rw [zipOut, if_neg (by simp [hfile])]
      exact List.mem_cons_self _ _
    · have htail := ih f hmem hfile
      rw [zipOut]
      cases a.isDir <;> simp [htail]

/-- C8: when every per-entry operation succeeds, both strategies produce
exactly the entry-ordered filesystem effects, and every regular-file entry
yields an output file at the joined path carrying the entry content and the
entry's stored permission bits (tar: applied by `os.Chmod(path,
os.FileMode(header.Mode))`; zip: applied at `os.OpenFile` creation from
`f.Mode()`). -/
theorem extraction_preserves_file_modes (dst : String)
    (tentries : List TarEntry) (zentries : List ZipEntry) :
    untargz true true (tentries.map fun e => (e, allTarOps)) dst = .ok (tarOut dst tentries) ∧
      unzip true (zentries.map fun f => (f, allZipOps)) dst = .ok (zipOut dst zentries) ∧
      (∀ e ∈ tentries, e.typeflag = TarType.reg →
        (goJoin dst e.name, FsNode.fileNode e.content e.mode) ∈ tarOut dst tentries) ∧
      (∀ f ∈ zentries, f.isDir = false →
        (goJoin dst f.name, FsNode.fileNode f.content f.mode) ∈ zipOut dst zentries) := by
  refine ⟨?_, ?_, tarOut_mem dst tentries, zipOut_mem dst zentries⟩
  · simpa [untargz] using untargzLoop_all_ok dst tentries []
  · simpa [unzip] using unzipLoop_all_ok dst zentries []

/-- Witness for C8: an archive with a file of mode `0644` and a file of mode
`0755`, in each format; after extraction the output files carry those modes. -/
theorem extraction_preserves_file_modes_witness :
    (goJoin "d" "go/a", FsNode.fileNode [1] 0o644) ∈
        tarOut "d" [⟨"go/a", TarType.reg, 0o644, [1]⟩, ⟨"go/b", TarType.reg, 0o755, [2]⟩] ∧
      (goJoin "d" "go/b", FsNode.fileNode [2] 0o755) ∈
        tarOut "d" [⟨"go/a", TarType.reg, 0o644, [1]⟩, ⟨"go/b", TarType.reg, 0o755, [2]⟩] ∧
      (goJoin "d" "go/a", FsNode.fileNode [1] 0o644) ∈
        zipOut "d" [⟨"go/a", false, 0o644, [1]⟩, ⟨"go/b", false, 0o755, [2]⟩] ∧
      (goJoin "d" "go/b", FsNode.fileNode [2] 0o755) ∈
        zipOut "d" [⟨"go/a", false, 0o644, [1]⟩, ⟨"go/b", false, 0o755, [2]⟩] :=
  ⟨(extraction_preserves_file_modes "d"
        [⟨"go/a", TarType.reg, 0o644, [1]⟩, ⟨"go/b", TarType.reg, 0o755, [2]⟩]
        [⟨"go/a", false, 0o644, [1]⟩, ⟨"go/b", false, 0o755, [2]⟩]).2.2.1
      ⟨"go/a", TarType.reg, 0o644, [1]⟩ (by decide) rfl,
    (extraction_preserves_file_modes "d"
        [⟨"go/a", TarType.reg, 0o644, [1]⟩, ⟨"go/b", TarType.reg, 0o755, [2]⟩]
        [⟨"go/a", false, 0o644, [1]⟩, ⟨"go/b", false, 0o755, [2]⟩]).2.2.1
      ⟨"go/b", TarType.reg, 0o755, [2]⟩ (by decide) rfl,
    (extraction_preserves_file_modes "d"
        [⟨"go/a", TarType.reg, 0o644, [1]⟩, ⟨"go/b", TarType.reg, 0o755, [2]⟩]
        [⟨"go/a", false, 0o644, [1]⟩, ⟨"go/b", false, 0o755, [2]⟩]).2.2.2
      ⟨"go/a", false, 0o644, [1]⟩ (by decide) rfl,
    (extraction_preserves_file_modes "d"
        [⟨"go/a", TarType.reg, 0o644, [1]⟩, ⟨"go/b", TarType.reg, 0o755, [2]⟩]
        [⟨"go/a", false, 0o644, [1]⟩, ⟨"go/b", false, 0o755, [2]⟩]).2.2.2
      ⟨"go/b", false, 0o755, [2]⟩ (by decide) rfl⟩

/-! ## InstallPipeline (`main`, main.go lines 124-319)

The pipeline is modelled as a trace-producing function.  Every fallible
library call is an oracle in `MainInput`.  `before` is the directory tree (if
any) sitting at the final versioned path `installRoot/go<version>` when the
promoting stage reads it (it is also the unchanged value on every earlier exit,
since no earlier stage writes that path), and `extracted` is the tree produced
by one completed extraction in the temp directory.  Go semantics of
`defer os.RemoveAll(tempDir)` (line 265) is modelled exactly: deferred calls
run on a normal return from `main` but NOT on `os.Exit`. -/

/-- Observable events of one pipeline invocation, in execution order. -/
inductive Ev where
  | netFetchLatest
  | statVersioned
  | netDownload
  | extractArchive
  | statVersionedAtPromote
  | removeExistingVersioned
  | mkdirParent
  | renameIntoPlace
  | removeArchive
  | removeTempDir
  deriving Repr, DecidableEq

/-- Decidable equality for `Except`, needed to evaluate the pipeline model on
concrete inputs. -/
def exceptDecEq {ε α : Type} [DecidableEq ε] [DecidableEq α] :
    DecidableEq (Except ε α)
  | .ok x, .ok y =>
    if h : x = y then isTrue (by rw [h])
    else isFalse (by intro hc; cases hc; exact h rfl)
  | .ok _, .error _ => isFalse (by intro hc; cases hc)
  | .error _, .ok _ => isFalse (by intro hc; cases hc)
  | .error x, .error y =>
    if h : x = y then isTrue (by rw [h])
    else isFalse (by intro hc; cases hc; exact h rfl)

instance {ε α : Type} [DecidableEq ε] [DecidableEq α] : DecidableEq (Except ε α) :=
  exceptDecEq

/-- Oracles for the fallible operations of `main`, in source order.
`expandOk` covers `expandPathOrExit(installPath)` (line 162); the later
expansions at lines 194 and 282 operate on paths that are already absolute
whenever the first succeeds, so one oracle suffices. -/
structure MainInput where
  versionArg : String
  latestResult : Except String String
  expandOk : Bool
  userOk : Bool
  versionedExists : Bool
  mkdirInstallOk : Bool
  downloadResult : Except String Unit
  mkdirTempOk : Bool
  extractResult : Except String Unit
  removeExistingOk : Bool
  mkdirParentOk : Bool
  renameOk : Bool
  deriving Repr, DecidableEq

/-- Result of one pipeline invocation: process exit code, event trace,
whether the temp extraction directory was created and whether its deferred
removal actually ran, whether the version-not-found hint branch ran, and the
final contents of the versioned path. -/
structure MainOutput (α : Type) where
  exitCode : Nat
  trace : List Ev
  tempDirCreated : Bool
  tempDirRemoved : Bool
  notFoundHint : Bool
  versionedFinal : Option α
  deriving Repr, DecidableEq

/-- Promoting tail of `main` (lines 292-319) after any pre-existing entry has
been handled: parent `MkdirAll`, `Rename`, archive removal, and — only on the
normal return — the deferred temp-dir removal.  `cur` is the content of the
versioned path at this point. -/
def mainGoFinish {α : Type} (i : MainInput) (extracted : α) (t : List Ev)
    (cur : Option α) : MainOutput α :=
  if i.mkdirParentOk then
    if i.renameOk then
      ⟨0, t ++ [.mkdirParent, .renameIntoPlace, .removeArchive, .removeTempDir],
        true, true, false, some extracted⟩
    else ⟨1, t ++ [.mkdirParent], true, false, false, cur⟩
  else ⟨1, t, true, false, false, cur⟩

/-- Promoting stage of `main` (lines 277-302): stat the versioned path,
`RemoveAll` any pre-existing entry (an exit-1 path on failure), then finish.
`os.RemoveAll` is a library primitive modelled atomically: on failure the
entry is left as it was (sub-entry partial removal is below the granularity
of this model). -/
def mainGoPromote {α : Type} (i : MainInput) (before : Option α) (extracted : α)
    (t : List Ev) : MainOutput α :=
  let t4 := t ++ [.statVersionedAtPromote]
  match before with
  | some _ =>
    if i.removeExistingOk then
      mainGoFinish i extracted (t4 ++ [.removeExistingVersioned]) none
    else ⟨1, t4, true, false, false, before⟩
  | none => mainGoFinish i extracted t4 none

/-- The pipeline from the `user.Current` call (line 197) onward, after the
version string has been resolved; `t0` is the trace accumulated so far. -/
def mainGoAfterVersion {α : Type} (i : MainInput) (before : Option α) (extracted : α)
    (t0 : List Ev) : MainOutput α :=
  if i.userOk then
    let t1 := t0 ++ [.statVersioned]
    if i.versionedExists then ⟨0, t1, false, false, false, before⟩
    else if i.mkdirInstallOk then
      let t2 := t1 ++ [.netDownload]
      match i.downloadResult with
      | .error e => ⟨1, t2, false, false, strContains e "404", before⟩
      | .ok _ =>
        if i.mkdirTempOk then
          let t3 := t2 ++ [.extractArchive]
          match i.extractResult with
          | .error _ => ⟨1, t3, true, false, false, before⟩
          | .ok _ => mainGoPromote i before extracted t3
        else ⟨1, t2, false, false, false, before⟩
    else ⟨1, t1, false, false, false, before⟩
  else ⟨1, t0, false, false, false, before⟩

/-- Model of `main` (lines 124-319) for an install invocation: install-path
expansion, resolution of `latest`/`-` through the network metadata fetch,
then the rest of the pipeline. -/
def mainGo {α : Type} (i : MainInput) (before : Option α) (extracted : α) :
    MainOutput α :=
  if i.expandOk then
    if i.versionArg = "latest" ∨ i.versionArg = "-" then
      match i.latestResult with
      | .error _ => ⟨1, [.netFetchLatest], false, false, false, before⟩
      | .ok _ => mainGoAfterVersion i before extracted [.netFetchLatest]
    else mainGoAfterVersion i before extracted []
  else ⟨1, [], false, false, false, before⟩

theorem mainGoFinish_inv {α : Type} (i : MainInput) (extracted : α) (t : List Ev)
    (cur : Option α) (ht : Ev.renameIntoPlace ∉ t) :
    ((mainGoFinish i extracted t cur).versionedFinal = cur ∨
      (mainGoFinish i extracted t cur).versionedFinal = some extracted) ∧
      (Ev.renameIntoPlace ∈ (mainGoFinish i extracted t cur).trace →
        (mainGoFinish i extracted t cur).versionedFinal = some extracted ∧
          (mainGoFinish i extracted t cur).exitCode = 0) := by
  cases hm : i.mkdirParentOk <;> cases hr : i.renameOk <;>
    simp [mainGoFinish, hm, hr, ht]

theorem mainGoPromote_inv {α : Type} (i : MainInput) (before : Option α)
    (extracted : α) (t : List Ev) (ht : Ev.renameIntoPlace ∉ t) :
    ((mainGoPromote i before extracted t).versionedFinal = none ∨
      (mainGoPromote i before extracted t).versionedFinal = before ∨
      (mainGoPromote i before extracted t).versionedFinal = some extracted) ∧
      (Ev.renameIntoPlace ∈ (mainGoPromote i before extracted t).trace →
        (mainGoPromote i before extracted t).versionedFinal = some extracted ∧
          (mainGoPromote i before extracted t).exitCode = 0) := by
  cases before with
  | none =>
    have h := mainGoFinish_inv i extracted (t ++ [Ev.statVersionedAtPromote])
      (none : Option α) (by simp [ht])
    exact ⟨h.1.elim Or.inl (fun h2 => Or.inr (Or.inr h2)), h.2⟩
  | some b =>
    cases hro : i.removeExistingOk with
    | true =>
      have h := mainGoFinish_inv i extracted
        ((t ++ [Ev.statVersionedAtPromote]) ++ [Ev.removeExistingVersioned])
        (none : Option α) (by simp [ht])
      have he : mainGoPromote i (some b) extracted t =
          mainGoFinish i extracted
            ((t ++ [Ev.statVersionedAtPromote]) ++ [Ev.removeExistingVersioned]) none := by
        simp [mainGoPromote, hro]
      rw [he]
      exact ⟨h.1.elim Or.inl (fun h2 => Or.inr (Or.inr h2)), h.2⟩
    | false =>
      have he : mainGoPromote i (some b) extracted t =
          ⟨1, t ++ [Ev.statVersionedAtPromote], true, false, false, some b⟩ := by
        simp [mainGoPromote, hro]
      rw [he]
      refine ⟨Or.inr (Or.inl rfl), fun hmem => ?_⟩
      exact absurd hmem (by simp [ht])

theorem mainGoAfterVersion_inv {α : Type} (i : MainInput) (before : Option α)
    (extracted : α) (t0 : List Ev) (ht : Ev.renameIntoPlace ∉ t0) :
    ((mainGoAfterVersion i before extracted t0).versionedFinal = none ∨
      (mainGoAfterVersion i before extracted t0).versionedFinal = before ∨
      (mainGoAfterVersion i before extracted t0).versionedFinal = some extracted) ∧
      (Ev.renameIntoPlace ∈ (mainGoAfterVersion i before extracted t0).trace →
        (mainGoAfterVersion i before extracted t0).versionedFinal = some extracted ∧
          (mainGoAfterVersion i before extracted t0).exitCode = 0) := by
  cases hu : i.userOk with
  | false =>
    have he : mainGoAfterVersion i before extracted t0 =
        ⟨1, t0, false, false, false, before⟩ := by
      simp [mainGoAfterVersion, hu]
    rw [he]
    exact ⟨Or.inr (Or.inl rfl), fun hmem => absurd hmem ht⟩
  | true =>
    cases hv : i.versionedExists with
    | true =>
      have he : mainGoAfterVersion i before extracted t0 =
          ⟨0, t0 ++ [Ev.statVersioned], false, false, false, before⟩ := by
        simp [mainGoAfterVersion, hu, hv]
      rw [he]
      exact ⟨Or.inr (Or.inl rfl), fun hmem => absurd hmem (by simp [ht])⟩
    | false =>
      cases hmi : i.mkdirInstallOk with
      | false =>
        have he : mainGoAfterVersion i before extracted t0 =
            ⟨1, t0 ++ [Ev.statVersioned], false, false, false, before⟩ := by
          simp [mainGoAfterVersion, hu, hv, hmi]
        rw [he]
        exact ⟨Or.inr (Or.inl rfl), fun hmem => absurd hmem (by simp [ht])⟩
      | true =>
        cases hdr : i.downloadResult with
        | error e =>
          have he : mainGoAfterVersion i before extracted t0 =
              ⟨1, (t0 ++ [Ev.statVersioned]) ++ [Ev.netDownload], false, false,
                strContains e "404", before⟩ := by
            simp [mainGoAfterVersion, hu, hv, hmi, hdr]
          rw [he]
          exact ⟨Or.inr (Or.inl rfl), fun hmem => absurd hmem (by simp [ht])⟩
        | ok u =>
          cases hmt : i.mkdirTempOk with
          | false =>
            have he : mainGoAfterVersion i before extracted t0 =
                ⟨1, (t0 ++ [Ev.statVersioned]) ++ [Ev.netDownload], false, false,
                  false, before⟩ := by
              simp [mainGoAfterVersion, hu, hv, hmi, hdr, hmt]
            rw [he]
            exact ⟨Or.inr (Or.inl rfl), fun hmem => absurd hmem (by simp [ht])⟩
          | true =>
            cases her : i.extractResult with
            | error e2 =>
              have he : mainGoAfterVersion i before extracted t0 =
                  ⟨1, ((t0 ++ [Ev.statVersioned]) ++ [Ev.netDownload]) ++
                    [Ev.extractArchive], true, false, false, before⟩ := by
                simp [mainGoAfterVersion, hu, hv, hmi, hdr, hmt, her]
              rw [he]
              exact ⟨Or.inr (Or.inl rfl), fun hmem => absurd hmem (by simp [ht])⟩
            | ok u2 =>
              have he : mainGoAfterVersion i before extracted t0 =
                  mainGoPromote i before extracted
                    (((t0 ++ [Ev.statVersioned]) ++ [Ev.netDownload]) ++
                      [Ev.extractArchive]) := by
                simp [mainGoAfterVersion, hu, hv, hmi, hdr, hmt, her]
              rw [he]
              exact mainGoPromote_inv i before extracted _ (by simp [ht])

/-- C1: after any invocation — success or failure at any stage — the final
versioned path holds either nothing, the unchanged pre-existing entry, or
exactly the tree produced by one completed extraction; moreover a rename into
place happens only on the fully successful path, where the final contents are
exactly the extracted tree.  (The promoting stage first removes any
pre-existing entry, then ensures the parent chain, then performs the single
rename — see `mainGoPromote` and `mainGoFinish`.) -/
theorem versioned_dir_promote_invariant {α : Type} (i : MainInput)
    (before : Option α) (extracted : α) :
    ((mainGo i before extracted).versionedFinal = none ∨
      (mainGo i before extracted).versionedFinal = before ∨
      (mainGo i before extracted).versionedFinal = some extracted) ∧
      (Ev.renameIntoPlace ∈ (mainGo i before extracted).trace →
        (mainGo i before extracted).versionedFinal = some extracted ∧
          (mainGo i before extracted).exitCode = 0) := by
  by_cases hexp : i.expandOk = true
  · by_cases hlat : i.versionArg = "latest" ∨ i.versionArg = "-"
    · cases hres : i.latestResult with
      | error e =>
        have he : mainGo i before extracted =
            ⟨1, [Ev.netFetchLatest], false, false, false, before⟩ := by
          simp [mainGo, hexp, hlat, hres]
        rw [he]
        exact ⟨Or.inr (Or.inl rfl), fun hmem => absurd hmem (by simp)⟩
      | ok v =>
        have he : mainGo i before extracted =
            mainGoAfterVersion i before extracted [Ev.netFetchLatest] := by
          simp [mainGo, hexp, hlat, hres]
        rw [he]
        exact mainGoAfterVersion_inv i before extracted _ (by decide)
    · have he : mainGo i before extracted =
          mainGoAfterVersion i before extracted [] := by
        simp [mainGo, hexp, hlat]
      rw [he]
      exact mainGoAfterVersion_inv i before extracted _ (by decide)
  · have he : mainGo i before extracted = ⟨1, [], false, false, false, before⟩ := by
      simp [mainGo, hexp]
    rw [he]
    exact ⟨Or.inr (Or.inl rfl), fun hmem => absurd hmem (by simp)⟩

/-- C3 evaluation at the failing input: with extraction failing (for example a
corrupt gzip header) and every other operation succeeding, the pipeline exits
with code 1 after creating the temp extraction directory, and the
`defer os.RemoveAll(tempDir)` never runs because `os.Exit(1)` terminates the
process without running deferred functions — the temp directory is NOT
removed on this exit path (nor on the removal, parent-mkdir or rename failure
paths); it is removed only on the successful run. -/
theorem temp_dir_not_removed_on_failure_paths :
    (mainGo ⟨"1.23.1", .ok "1.23.1", true, true, false, true, .ok (), true,
        .error "gzip: invalid header", true, true, true⟩ (none : Option Nat) 0 =
      ⟨1, [Ev.statVersioned, Ev.netDownload, Ev.extractArchive], true, false, false, none⟩) ∧
      (mainGo ⟨"1.23.1", .ok "1.23.1", true, true, false, true, .ok (), true,
          .ok (), true, true, true⟩ (none : Option Nat) 0 =
        ⟨0, [Ev.statVersioned, Ev.netDownload, Ev.extractArchive, Ev.statVersionedAtPromote,
          Ev.mkdirParent, Ev.renameIntoPlace, Ev.removeArchive, Ev.removeTempDir],
          true, true, false, some 0⟩) :=
  ⟨rfl, rfl⟩

/-- C2 counterexample: an invocation with version argument `latest` whose
versioned directory already exists still performs network activity — the
metadata fetch of `getLatestGoVersion` — and this fetch happens before the
filesystem presence check, contradicting the claim that such an invocation
performs no network activity and that the presence check precedes all network
activity. -/
theorem latest_fetch_precedes_presence_check :
    (mainGo ⟨"latest", .ok "1.23.1", true, true, true, true, .ok (), true,
        .ok (), true, true, true⟩ (some 0) 1 =
      ⟨0, [Ev.netFetchLatest, Ev.statVersioned], false, false, false, some 0⟩) ∧
      Ev.netFetchLatest ∈ [Ev.netFetchLatest, Ev.statVersioned] :=
  ⟨rfl, by decide⟩

/-- C2 amended: whenever the versioned directory already exists (and path
expansion and the current-user lookup succeed), the pipeline performs no
archive download, no extraction and no rename, and leaves the versioned path
unchanged; with an explicitly given version it exits 0 having performed no
network activity at all, the presence check being the only probe; with
version argument `latest` or `-` a metadata network fetch precedes the
presence check, and when that fetch succeeds the pipeline still exits 0 with
no further network or extraction work. -/
theorem versioned_exists_short_circuit {α : Type} (i : MainInput) (before : Option α)
    (extracted : α) (hexp : i.expandOk = true) (huser : i.userOk = true)
    (hex : i.versionedExists = true) :
    (Ev.netDownload ∉ (mainGo i before extracted).trace ∧
      Ev.extractArchive ∉ (mainGo i before extracted).trace ∧
      Ev.renameIntoPlace ∉ (mainGo i before extracted).trace ∧
      (mainGo i before extracted).versionedFinal = before) ∧
      (i.versionArg ≠ "latest" → i.versionArg ≠ "-" →
        mainGo i before extracted = ⟨0, [Ev.statVersioned], false, false, false, before⟩) ∧
      (∀ v, i.latestResult = Except.ok v →
        mainGo i before extracted =
          ⟨0, (if i.versionArg = "latest" ∨ i.versionArg = "-" then [Ev.netFetchLatest]
              else []) ++ [Ev.statVersioned], false, false, false, before⟩) := by
  have hafter : ∀ t0 : List Ev, mainGoAfterVersion i before extracted t0 =
      ⟨0, t0 ++ [Ev.statVersioned], false, false, false, before⟩ := by
    intro t0
    simp [mainGoAfterVersion, huser, hex]
  by_cases hlat : i.versionArg = "latest" ∨ i.versionArg = "-"
  · cases hres : i.latestResult with
    | error e =>
      have he : mainGo i before extracted =
          ⟨1, [Ev.netFetchLatest], false, false, false, before⟩ := by
        simp [mainGo, hexp, hlat, hres]
      rw [he]
      refine ⟨⟨by simp, by simp, by simp, rfl⟩, fun h1 h2 => ?_, fun v hv => ?_⟩
      · exact absurd hlat (by simp [h1, h2])
      · simp at hv
    | ok v0 =>
      have he : mainGo i before extracted =
          ⟨0, [Ev.netFetchLatest, Ev.statVersioned], false, false, false, before⟩ := by
        simp [mainGo, hexp, hlat, hres, hafter]
      rw [he]
      refine ⟨⟨by simp, by simp, by simp, rfl⟩, fun h1 h2 => ?_, fun v hv => ?_⟩
      · exact absurd hlat (by simp [h1, h2])
      · rw [if_pos hlat]
        rfl
  · have he : mainGo i before extracted =
        ⟨0, [Ev.statVersioned], false, false, false, before⟩ := by
      simp [mainGo, hexp, hlat, hafter]
    rw [he]
    refine ⟨⟨by simp, by simp, by simp, rfl⟩, fun _ _ => rfl, fun v hv => ?_⟩
    rw [if_neg hlat]
    rfl

/-- Witness for C2 (amended) at a concrete invocation with an explicit
version and the versioned directory present. -/
theorem versioned_exists_short_circuit_witness :
    (⟨"1.22.0", .ok "1.23.1", true, true, true, true, .ok (), true, .ok (), true,
        true, true⟩ : MainInput).expandOk = true ∧
      (mainGo ⟨"1.22.0", .ok "1.23.1", true, true, true, true, .ok (), true, .ok (),
          true, true, true⟩ (some 3) 4).versionedFinal = some 3 ∧
      mainGo ⟨"1.22.0", .ok "1.23.1", true, true, true, true, .ok (), true, .ok (),
          true, true, true⟩ (some 3) 4 =
        ⟨0, [Ev.statVersioned], false, false, false, some 3⟩ :=
  ⟨rfl,
    ((versioned_exists_short_circuit
        ⟨"1.22.0", .ok "1.23.1", true, true, true, true, .ok (), true, .ok (), true,
          true, true⟩ (some 3) 4 rfl rfl rfl).1).2.2.2,
    (versioned_exists_short_circuit
        ⟨"1.22.0", .ok "1.23.1", true, true, true, true, .ok (), true, .ok (), true,
          true, true⟩ (some 3) 4 rfl rfl rfl).2.1 (by decide) (by decide)⟩

/-- C7: when the archive URL answers with status 404, the downloader fails
with an error message embedding the full status text, which the caller
distinguishes from a generic transport failure via `strings.Contains(err,
"404")` (a transport failure propagates its own message, which does not
contain `404`); an invocation hitting this error exits 1 showing the
version-not-found hint, and no versioned directory is created — the final
versioned path is exactly what it was before. -/
theorem download_notfound_distinct {α : Type} (url m : String) (len : Nat)
    (g : HttpRes) (ce cpe : Option String) (i : MainInput) (before : Option α)
    (extracted : α)
    (hm : strContains m "404" = false)
    (hexp : i.expandOk = true) (hver : i.versionArg ≠ "latest")
    (hver2 : i.versionArg ≠ "-") (huser : i.userOk = true)
    (hexists : i.versionedExists = false) (hmkd : i.mkdirInstallOk = true)
    (hdl : i.downloadResult =
      .error ("bad status: " ++ "404 Not Found" ++ " (URL: " ++ url ++ ")")) :
    downloadFileWithProgress url (.response 404 "404 Not Found" len) g ce cpe =
        .error ("bad status: " ++ "404 Not Found" ++ " (URL: " ++ url ++ ")") ∧
      strContains ("bad status: " ++ "404 Not Found" ++ " (URL: " ++ url ++ ")") "404" = true ∧
      downloadFileWithProgress url (.failure m) g ce cpe = .error m ∧
      strContains m "404" = false ∧
      mainGo i before extracted =
        ⟨1, [Ev.statVersioned, Ev.netDownload], false, false, true, before⟩ := by
  have h404 : strContains ("bad status: " ++ "404 Not Found" ++ " (URL: " ++ url ++ ")")
      "404" = true := by
    apply strContains_append_left
    apply strContains_append_left
    apply strContains_append_left
    decide
  have h404f : strContains ("bad status: 404 Not Found (URL: " ++ url ++ ")") "404" = true := by
    apply strContains_append_left
    apply strContains_append_left
    decide
  refine ⟨by simp [downloadFileWithProgress], h404, rfl, hm, ?_⟩
  unfold mainGo mainGoAfterVersion
  rw [if_pos hexp, if_neg (by simp [hver, hver2]), if_pos huser, if_neg (by simp [hexists]),
    if_pos hmkd, hdl]
  simp [h404f]

/-- Witness for C7 at a concrete URL, transport message and invocation. -/
theorem download_notfound_distinct_witness :
    strContains "connection refused" "404" = false ∧
      (downloadFileWithProgress "https://go.dev/dl/go9.9.9.linux-amd64.tar.gz"
          (.response 404 "404 Not Found" 0) (.response 200 "200 OK" 0) none none =
        .error ("bad status: " ++ "404 Not Found" ++ " (URL: " ++
          "https://go.dev/dl/go9.9.9.linux-amd64.tar.gz" ++ ")") ∧
      strContains ("bad status: " ++ "404 Not Found" ++ " (URL: " ++
          "https://go.dev/dl/go9.9.9.linux-amd64.tar.gz" ++ ")") "404" = true ∧
      downloadFileWithProgress "https://go.dev/dl/go9.9.9.linux-amd64.tar.gz"
          (.failure "connection refused") (.response 200 "200 OK" 0) none none =
        .error "connection refused" ∧
      strContains "connection refused" "404" = false ∧
      mainGo ⟨"9.9.9", .ok "1.23.1", true, true, false, true,
          .error ("bad status: " ++ "404 Not Found" ++ " (URL: " ++
            "https://go.dev/dl/go9.9.9.linux-amd64.tar.gz" ++ ")"), true, .ok (),
          true, true, true⟩ (none : Option Nat) 0 =
        ⟨1, [Ev.statVersioned, Ev.netDownload], false, false, true, none⟩) :=
  ⟨by decide,
    download_notfound_distinct "https://go.dev/dl/go9.9.9.linux-amd64.tar.gz"
      "connection refused" 0 (.response 200 "200 OK" 0) none none
      ⟨"9.9.9", .ok "1.23.1", true, true, false, true,
        .error ("bad status: " ++ "404 Not Found" ++ " (URL: " ++
          "https://go.dev/dl/go9.9.9.linux-amd64.tar.gz" ++ ")"), true, .ok (),
        true, true, true⟩ (none : Option Nat) 0
      (by decide) rfl (by decide) (by decide) rfl rfl rfl rfl⟩

/-! ## expandPath (main.go lines 687-713) -/

/-- Model of `expandPath`: `home` is `user.Current().HomeDir` with success
oracle `userOk`, `cwd` the working directory used by `filepath.Abs` (whose own
error can only come from `os.Getwd`; the directory is supplied here, so `Abs`
is total). -/
def expandPath (home cwd : String) (userOk : Bool) (path : String) :
    Except String String :=
  if path = "~" ∨ strStarts path "~/" = true then
    if userOk then
      .ok (filepathAbs cwd (if path = "~" then home else goJoin home (path.drop 2)))
    else .error "error getting current user"
  else .ok (filepathAbs cwd path)

theorem strStarts_append (s t : String) (h : strStarts s "/" = true) :
    strStarts (s ++ t) "/" = true := by
  unfold strStarts at h ⊢
  rw [String.data_append]
  exact listPfx_append _ _ _ h

theorem filepathAbs_isAbs (cwd p : String) (hcwd : filepathIsAbs cwd = true) :
    filepathIsAbs (filepathAbs cwd p) = true := by
  unfold filepathAbs
  by_cases hp : filepathIsAbs p = true
  · rw [if_pos hp]
    exact hp
  · rw [if_neg hp]
    unfold goJoin
    by_cases hc : cwd = ""
    · subst hc
      exact absurd hcwd (by decide)
    · rw [if_neg hc]
      by_cases hpe : p = ""
      · rw [if_pos hpe]
        exact hcwd
      · rw [if_neg hpe]
        unfold filepathIsAbs
        apply strStarts_append
        apply strStarts_append
        exact hcwd

/-- C10: for every input, `expandPath` either returns an error or an absolute
path; the tilde is expanded to the home directory exactly when the input is
`~` or starts with `~/` (and the user lookup succeeds), and any other input —
including `~user` forms and tildes in later components — is passed through
unchanged, merely converted to absolute against the working directory. -/
theorem expandPath_spec (home cwd : String) (userOk : Bool) (path : String)
    (hcwd : filepathIsAbs cwd = true) :
    ((∃ e, expandPath home cwd userOk path = .error e) ∨
      (∃ r, expandPath home cwd userOk path = .ok r ∧ filepathIsAbs r = true)) ∧
      (path = "~" → userOk = true →
        expandPath home cwd userOk path = .ok (filepathAbs cwd home)) ∧
      (strStarts path "~/" = true → userOk = true →
        expandPath home cwd userOk path =
          .ok (filepathAbs cwd (goJoin home (path.drop 2)))) ∧
      (path ≠ "~" → strStarts path "~/" = false →
        expandPath home cwd userOk path = .ok (filepathAbs cwd path)) := by
  refine ⟨?_, ?_, ?_, ?_⟩
  · unfold expandPath
    by_cases h1 : path = "~" ∨ strStarts path "~/" = true
    · rw [if_pos h1]
      cases userOk with
      | false => exact Or.inl ⟨_, rfl⟩
      | true => exact Or.inr ⟨_, rfl, filepathAbs_isAbs _ _ hcwd⟩
    · rw [if_neg h1]
      exact Or.inr ⟨_, rfl, filepathAbs_isAbs _ _ hcwd⟩
  · intro hp hu
    subst hp
    simp [expandPath, hu]
  · intro hs hu
    have hne : path ≠ "~" := by
      intro hp
      subst hp
      exact absurd hs (by decide)
    simp [expandPath, hs, hne, hu]
  · intro hne hns
    simp [expandPath, hne, hns]

/-- Witness for C10 at a concrete `~user`-style path (not expanded) and
absolute working directory. -/
theorem expandPath_spec_witness :
    filepathIsAbs "/w" = true ∧
      (((∃ e, expandPath "/home/u" "/w" true "~user/x" = .error e) ∨
        (∃ r, expandPath "/home/u" "/w" true "~user/x" = .ok r ∧
          filepathIsAbs r = true)) ∧
      ("~user/x" = "~" → true = true →
        expandPath "/home/u" "/w" true "~user/x" = .ok (filepathAbs "/w" "/home/u")) ∧
      (strStarts "~user/x" "~/" = true → true = true →
        expandPath "/home/u" "/w" true "~user/x" =
          .ok (filepathAbs "/w" (goJoin "/home/u" ("~user/x".drop 2)))) ∧
      ("~user/x" ≠ "~" → strStarts "~user/x" "~/" = false →
        expandPath "/home/u" "/w" true "~user/x" = .ok (filepathAbs "/w" "~user/x"))) :=
  ⟨by decide, expandPath_spec "/home/u" "/w" true "~user/x" (by decide)⟩

/-! ## Environment-file editing
(`setupUnixEnvironment` main.go lines 331-394, `setupEnvrcFile` lines 757-870)

The filesystem is an association list from path to node (first binding wins). -/

inductive FNode where
  | dir
  | file (content : String)
  deriving Repr, DecidableEq

abbrev EFS : Type := List (String × FNode)

def lookupFS : EFS → String → Option FNode
  | [], _ => none
  | (k, v) :: rest, p => if k = p then some v else lookupFS rest p

/-- Create or replace the node at `tgt`. -/
def writeFS : EFS → String → FNode → EFS
  | [], tgt, nd => [(tgt, nd)]
  | (k, v) :: rest, tgt, nd =>
    if k = tgt then (k, nd) :: rest else (k, v) :: writeFS rest tgt nd

theorem lookupFS_writeFS_ne (fs : EFS) (q p : String) (nd : FNode) (h : q ≠ p) :
    lookupFS (writeFS fs q nd) p = lookupFS fs p := by
  induction fs with
  | nil => simp [writeFS, lookupFS, h]
  | cons e rest ih =>
    obtain ⟨k, v⟩ := e
    by_cases hk : k = q
    · subst hk
      simp [writeFS, lookupFS, h]
    · by_cases hp : k = p
      · subst hp
        simp [writeFS, hk, lookupFS]
      · simp [writeFS, hk, lookupFS, hp, ih]

/-- The export lines built by `setupUnixEnvironment` (lines 340-344). -/
def goEnvExports (goroot gopath : String) : List String :=
  ["export GOROOT=" ++ goroot, "export GOPATH=" ++ gopath,
   "export PATH=$PATH:$GOPATH/bin:$GOROOT/bin"]

/-- Sequential `WriteString` calls appending to the file at `p`; `failAt` is
the index of the first failing write (the Go code returns at that point,
leaving the earlier appends in place). `k` is the index of the next write. -/
def writeSeq (fs : EFS) (p : String) (failAt : Option Nat) :
    Nat → List String → EFS
  | _, [] => fs
  | k, s :: rest =>
    if failAt = some k then fs
    else
      match lookupFS fs p with
      | some (.file c) => writeSeq (writeFS fs p (.file (c ++ s))) p failAt (k + 1) rest
      | _ => fs

/-- Model of `setupUnixEnvironment` (main.go lines 331-394).
`shellConfigFile` is the result of `getShellConfigFile` (empty string when
undetermined), `openOk` the oracle for the append-mode `OpenFile`, `failAt`
the write oracle.  The function only reports errors, so the model returns the
updated filesystem. -/
def setupUnixEnvironment (goroot gopath shellConfigFile : String) (fs : EFS)
    (openOk : Bool) (failAt : Option Nat) : EFS :=
  if shellConfigFile = "" then fs
  else
    let fs1 := match lookupFS fs shellConfigFile with
      | none => writeFS fs shellConfigFile (.file "")
      | some _ => fs
    match lookupFS fs1 shellConfigFile with
    | some (.file content) =>
      if strContains content "GOROOT=" then fs1
      else if openOk then
        writeSeq fs1 shellConfigFile failAt 0
          ("\n# Go environment variables added by getgo\n" ::
            (goEnvExports goroot gopath).map (fun s => s ++ "\n"))
      else fs1
    | _ => fs1

/-- Model of `strings.HasSuffix`. -/
def strEnds (s pat : String) : Bool := listPfx pat.data.reverse s.data.reverse

/-- Model of `filepath.Dir`: drop the final component (helper on the reversed
character list). -/
def dirOfAux : List Char → List Char
  | [] => []
  | c :: rest => if c = '/' then rest else dirOfAux rest

def goDirOf (p : String) : String :=
  let r := dirOfAux p.data.reverse
  if r = [] then (if filepathIsAbs p then "/" else ".") else String.mk r.reverse

/-- Model of `os.MkdirAll` on the parent-directory path used by
`setupEnvrcFile`: succeeds when a directory already exists, creates the
directory node when missing, fails when a file occupies the path.  Missing
intermediate ancestors are subsumed by the target node (they live at strictly
shorter paths, which the verified properties do not observe). -/
def mkdirAllFS (fs : EFS) (d : String) : Except String EFS :=
  match lookupFS fs d with
  | some (.file _) => .error "mkdir: not a directory"
  | some .dir => .ok fs
  | none => .ok (writeFS fs d .dir)

/-- The `WriteString` sequence of `setupEnvrcFile` (lines 825-861): the
comment line, then the three exports (quoted on Windows). -/
def envrcLines (goroot gopath : String) (isWindows : Bool) : List String :=
  "\n# Go environment variables added by getgo\n" ::
    (if isWindows then
      ["export GOROOT=\"" ++ goroot ++ "\"\n", "export GOPATH=\"" ++ gopath ++ "\"\n",
       "export PATH=\"$PATH:$GOPATH/bin:$GOROOT/bin\"\n"]
    else
      ["export GOROOT=" ++ goroot ++ "\n", "export GOPATH=" ++ gopath ++ "\n",
       "export PATH=$PATH:$GOPATH/bin:$GOROOT/bin\n"])

/-- Result reported for the write sequence: error when `failAt` hits one of
the `total` writes. -/
def writeResult (failAt : Option Nat) (total : Nat) : Except String Unit :=
  match failAt with
  | some k => if k < total then .error "error writing to .envrc file" else .ok ()
  | none => .ok ()

/-- Model of `setupEnvrcFile` (main.go lines 757-870): expand the path, append
`.envrc` when the target is a directory, create the parent directory, then
either leave an existing file containing `GOROOT=` untouched or append the
environment lines (prefixed by a newline when the existing content does not
end with one).  Returns the updated filesystem and the reported result. -/
def setupEnvrcFile (envrcPath goroot gopath home cwd : String) (userOk : Bool)
    (fs : EFS) (openOk : Bool) (failAt : Option Nat) (isWindows : Bool) :
    EFS × Except String Unit :=
  match expandPath home cwd userOk envrcPath with
  | .error e => (fs, .error ("error expanding envrc path: " ++ e))
  | .ok p0 =>
    let p := match lookupFS fs p0 with
      | some .dir => goJoin p0 ".envrc"
      | _ => p0
    match mkdirAllFS fs (goDirOf p) with
    | .error _ => (fs, .error "error creating directory for .envrc")
    | .ok fs1 =>
      match lookupFS fs1 p with
      | some .dir => (fs1, .error "error reading existing .envrc file")
      | some (.file content) =>
        if strContains content "GOROOT=" then (fs1, .ok ())
        else if openOk then
          let ls := (if content ≠ "" ∧ strEnds content "\n" = false then ["\n"] else []) ++
            envrcLines goroot gopath isWindows
          (writeSeq fs1 p failAt 0 ls, writeResult failAt ls.length)
        else (fs1, .error "error opening .envrc file")
      | none =>
        if openOk then
          let ls := envrcLines goroot gopath isWindows
          (writeSeq (writeFS fs1 p (.file "")) p failAt 0 ls, writeResult failAt ls.length)
        else (fs1, .error "error creating .envrc file")

/-- C9: invoking either environment-file edit — the shell-configuration append
or the `.envrc` setup — on a target file whose current content already
contains the assignment text `GOROOT=` leaves that file byte-for-byte
unchanged: the existing assignment is detected and nothing is appended (the
shell-config edit leaves the whole filesystem untouched; the `.envrc` edit may
create the parent directory but never touches the target file). -/
theorem env_edit_idempotent (goroot gopath shellConfigFile envrcPath home cwd : String)
    (userOk openOk : Bool) (failAt : Option Nat) (isWindows : Bool) (fs : EFS)
    (content : String) (hct : strContains content "GOROOT=" = true)
    (hsh : lookupFS fs shellConfigFile = some (.file content))
    (p : String) (hp : expandPath home cwd userOk envrcPath = .ok p)
    (content2 : String) (hc2 : strContains content2 "GOROOT=" = true)
    (hpf : lookupFS fs p = some (.file content2)) :
    setupUnixEnvironment goroot gopath shellConfigFile fs openOk failAt = fs ∧
      lookupFS (setupEnvrcFile envrcPath goroot gopath home cwd userOk fs openOk
        failAt isWindows).1 p = some (.file content2) := by
  constructor
  · unfold setupUnixEnvironment
    by_cases h0 : shellConfigFile = ""
    · rw [if_pos h0]
    · rw [if_neg h0]
      simp [hsh, hct]
  · unfold setupEnvrcFile
    rw [hp]
    simp only [hpf]
    cases hd : lookupFS fs (goDirOf p) with
    | none =>
      have hne : goDirOf p ≠ p := by
        intro he
        rw [he, hpf] at hd
        cases hd
      have hl : lookupFS (writeFS fs (goDirOf p) FNode.dir) p = some (.file content2) := by
        rw [lookupFS_writeFS_ne fs (goDirOf p) p FNode.dir hne]
        exact hpf
      simp [mkdirAllFS, hd, hl, hc2]
    | some nd =>
      cases nd with
      | dir => simp [mkdirAllFS, hd, hpf, hc2]
      | file c => simp [mkdirAllFS, hd, hpf]

/-- Witness for C9 at a concrete filesystem whose shell configuration file and
`.envrc` file both already contain `GOROOT=`. -/
theorem env_edit_idempotent_witness :
    setupUnixEnvironment "/go/go1.23.1" "/home/u/go" "/home/u/.bashrc"
        [("/home/u/.bashrc", FNode.file "export GOROOT=/old\n"),
          ("/p/.envrc", FNode.file "export GOROOT=/old2\n")] true none =
      [("/home/u/.bashrc", FNode.file "export GOROOT=/old\n"),
        ("/p/.envrc", FNode.file "export GOROOT=/old2\n")] ∧
      lookupFS (setupEnvrcFile "/p/.envrc" "/go/go1.23.1" "/home/u/go" "/home/u" "/w"
          true [("/home/u/.bashrc", FNode.file "export GOROOT=/old\n"),
            ("/p/.envrc", FNode.file "export GOROOT=/old2\n")] true none false).1
        "/p/.envrc" = some (.file "export GOROOT=/old2\n") :=
  env_edit_idempotent "/go/go1.23.1" "/home/u/go" "/home/u/.bashrc" "/p/.envrc"
    "/home/u" "/w" true true none false
    [("/home/u/.bashrc", FNode.file "export GOROOT=/old\n"),
      ("/p/.envrc", FNode.file "export GOROOT=/old2\n")]
    "export GOROOT=/old\n" (by decide) (by decide)
    "/p/.envrc" (by decide)
    "export GOROOT=/old2\n" (by decide) (by decide)

end GetGo
